import Mathlib

/-!
Verification of the cluster lifecycle controller in
`src/elasticluster/cluster.py` (classes `Cluster` and `Node`).

Python strings are modelled as `List Char`, Python dicts as association
lists in insertion order (CPython iteration order is fixed per run; the
spec itself flags iteration-order dependence of the rebalancer, and all
theorems below are stated over the order the association list carries).
Python exceptions are modelled by the `PyError` type together with
`Except`-valued results; a function that can leave the object mutated at
the point of the raise returns the mutated state alongside the error.
The external collaborators (cloud provider, SSH transport) are modelled
as records of functions, per the interface contracts of spec §6.
-/

namespace Elasticluster

/-- Exception classes that the translated code can raise.  `instanceError`
stands for any collaborator-raised exception (`InstanceError`, boto errors,
etc.); the distinction never matters to the control flow translated here
except where a specific class is caught, which is noted at each use. -/
inductive PyError where
  | valueError
  | keyError
  | indexError
  | attributeError
  | clusterError
  | nodeNotFound
  | instanceError
  | timeoutError
deriving DecidableEq, Repr

/-- A Python string. -/
abbrev PyStr := List Char

/-- A node-group tag (`kind`). -/
abbrev Kind := PyStr

/-- An IP address string. -/
abbrev Ip := PyStr

/-- The launch parameters stored by `Node.__init__` (cluster key material
plus the per-node image/flavor arguments).  They are immutable after
creation and never inspected by the lifecycle logic, so they are bundled
in one record. -/
structure LaunchParams where
  user_key_public : PyStr
  user_key_private : PyStr
  user_key_name : PyStr
  image_user : PyStr
  security_group : PyStr
  image : PyStr
  flavor : PyStr
  image_userdata : PyStr
deriving DecidableEq, Repr

/-- The mutable state of a `Node` object: `name`, `kind`, the launch
parameters, and the three fields mutated by the lifecycle
(`instance_id`, `preferred_ip`, `ips`).  Cloud instance ids are opaque
non-empty strings in the source; they are modelled as `Nat` tokens. -/
structure Node where
  name : PyStr
  kind : Kind
  params : LaunchParams
  instance_id : Option Nat
  preferred_ip : Option Ip
  ips : List Ip
deriving DecidableEq, Repr

/-- `Cluster.nodes`: dict from kind to the ordered list of nodes of that
kind, in dict iteration order. -/
abbrev Groups := List (Kind × List Node)

/-- The `min_nodes` dict passed to `Cluster.start` /
`Cluster._check_cluster_size`: kind to minimum count (a Python `int`,
hence `Int`). -/
abbrev MinNodes := List (Kind × Int)

/-! ### Association-list operations (Python dict / list primitives) -/

/-- Dict lookup (first occurrence; dict keys are unique in Python, the
functions below keep that invariant). -/
def alookup {β : Type} : List (Kind × β) → Kind → Option β
  | [], _ => none
  | (k', v) :: rest, k => if k' = k then some v else alookup rest k

/-- Dict item assignment `d[k] = v` for a key already present (in-place
list mutation in the source is encoded as rebinding the key's value). -/
def aupdate {β : Type} : List (Kind × β) → Kind → β → List (Kind × β)
  | [], _, _ => []
  | (k', v') :: rest, k, v => if k' = k then (k, v) :: rest else (k', v') :: aupdate rest k v

/-- `k in d` (Python key membership test). -/
def containsKey {β : Type} (d : List (Kind × β)) (k : Kind) : Bool :=
  (alookup d k).isSome

/-- Python `list.remove(x)` minus the raise: drops the first occurrence
of `x`; total version used where presence was established first. -/
def removeFirst {α : Type} [DecidableEq α] : List α → α → List α
  | [], _ => []
  | x :: xs, a => if x = a then xs else x :: removeFirst xs a

/-- `Cluster.get_all_nodes`: `reduce(operator.add, self.nodes.values(), list())`,
i.e. the concatenation of the group lists in dict order. -/
def getAllNodes : Groups → List Node
  | [] => []
  | (_, ns) :: rest => ns ++ getAllNodes rest

/-! ### `Cluster._check_cluster_size` -/

/-- The running sum `minimum_nodes` over `min_nodes.iteritems()`. -/
def sumMins (mins : MinNodes) : Int :=
  mins.foldl (fun acc p => acc + p.2) 0

/-- The `unsatisfied_groups` list: kinds `group` from `min_nodes` (in its
iteration order) with `len(self.nodes[group]) < size`.  The subscript
raises `KeyError` when a kind in `min_nodes` has no group. -/
def computeUnsatisfied : MinNodes → Groups → Except PyError (List Kind)
  | [], _ => .ok []
  | (g, size) :: rest, gs =>
    match alookup gs g with
    | none => .error .keyError
    | some ns =>
      match computeUnsatisfied rest gs with
      | .error e => .error e
      | .ok tail => .ok (if (ns.length : Int) < size then g :: tail else tail)

/-- One node move:
`self.nodes[ugroup].append(self.nodes[group][-1]); del self.nodes[group][-1]`.
The last node of the donor list is appended to the unsatisfied group,
then deleted from the donor; evaluation order (read both lists, read the
donor's last element, append, re-read the donor, delete its last
element) matches the source, which also makes the aliased
`ugroup == group` case a net no-op exactly as in Python. -/
def moveLast (gs : Groups) (ugroup donor : Kind) : Except PyError Groups :=
  match alookup gs ugroup with
  | none => .error .keyError
  | some lu =>
    match alookup gs donor with
    | none => .error .keyError
    | some ld =>
      match ld.getLast? with
      | none => .error .indexError
      | some x =>
        let gs1 := aupdate gs ugroup (lu ++ [x])
        match alookup gs1 donor with
        | none => .error .keyError
        | some ld1 =>
          if ld1.isEmpty then .error .indexError
          else .ok (aupdate gs1 donor ld1.dropLast)

/-- The `while spare > 0 and missing > 0` loop for one donor.  `spare`
only ever decreases by 1 per iteration, so the loop runs at most
`spare.toNat` times; the fuel argument is exactly that bound, and fuel 0
is the `spare <= 0` exit.  On `missing == 0` the current unsatisfied
group is removed (`unsatisfied_groups.remove(ugroup)`).  Errors raised
mid-loop carry the groups as mutated so far. -/
def whileMove (ugroup donor : Kind) :
    Nat → Int → Groups → List Kind → Except (PyError × Groups) (Groups × Int × List Kind)
  | 0, missing, gs, uns => .ok (gs, missing, uns)
  | fuel + 1, missing, gs, uns =>
    if missing ≤ 0 then .ok (gs, missing, uns)
    else
      match moveLast gs ugroup donor with
      | .error e => .error (e, gs)
      | .ok gs' =>
        let missing' := missing - 1
        let uns' := if missing' = 0 then removeFirst uns ugroup else uns
        whileMove ugroup donor fuel missing' gs' uns'

/-- The `for group, nodes in self.nodes.iteritems()` donor scan for one
unsatisfied group: `spare = len(self.nodes[group]) - min_nodes[group]`
(a `KeyError` if the donor kind has no minimum), then the while loop. -/
def donorLoop (ugroup : Kind) (mins : MinNodes) :
    List Kind → Int → Groups → List Kind → Except (PyError × Groups) (Groups × Int × List Kind)
  | [], missing, gs, uns => .ok (gs, missing, uns)
  | d :: rest, missing, gs, uns =>
    match alookup gs d with
    | none => .error (.keyError, gs)
    | some nd =>
      match alookup mins d with
      | none => .error (.keyError, gs)
      | some mn =>
        match whileMove ugroup d ((nd.length : Int) - mn).toNat missing gs uns with
        | .error e => .error e
        | .ok (gs', missing', uns') => donorLoop ugroup mins rest missing' gs' uns'

/-- The `for ugroup in unsatisfied_groups[:]` loop: iterates over the
copy (first argument) while the live `unsatisfied_groups` list is
threaded through; `missing = min_nodes[ugroup] - len(self.nodes[ugroup])`
is recomputed from the current state for each unsatisfied group. -/
def ugroupLoop (mins : MinNodes) :
    List Kind → Groups → List Kind → Except (PyError × Groups) (Groups × List Kind)
  | [], gs, uns => .ok (gs, uns)
  | u :: rest, gs, uns =>
    match alookup mins u with
    | none => .error (.keyError, gs)
    | some mn =>
      match alookup gs u with
      | none => .error (.keyError, gs)
      | some nu =>
        match donorLoop u mins (gs.map Prod.fst) (mn - (nu.length : Int)) gs uns with
        | .error e => .error e
        | .ok (gs', _, uns') => ugroupLoop mins rest gs' uns'

/-- `Cluster._check_cluster_size(min_nodes)`.  Returns the groups dict as
it stands when the call returns or raises, together with the raised
exception if any (`none` = normal return).  The total-size check happens
before any mutation; the rebalancing loop mutates `self.nodes` in place
and a final `ClusterError` is raised with those mutations kept.  No
cloud-provider call occurs anywhere in this method (it takes no
collaborator), so no node is ever terminated by it. -/
def check_cluster_size (gs : Groups) (mins : MinNodes) : Groups × Option PyError :=
  let minimum_nodes := sumMins mins
  if ((getAllNodes gs).length : Int) < minimum_nodes then
    (gs, some .clusterError)
  else
    match computeUnsatisfied mins gs with
    | .error e => (gs, some e)
    | .ok uns =>
      match ugroupLoop mins uns gs uns with
      | .error (e, gs') => (gs', some e)
      | .ok (gs', uns') =>
        if uns'.isEmpty then (gs', none) else (gs', some .clusterError)

/-! ### Collaborator interfaces (spec §6) -/

/-- The cloud-provider collaborator.  Each operation either returns a
value or raises; the argument is whatever the source passes
(`self.instance_id`, possibly `None`). -/
structure CloudProvider where
  start_instance : LaunchParams → PyStr → Except PyError Nat
  stop_instance : Option Nat → Except PyError Unit
  is_instance_running : Option Nat → Except PyError Bool
  get_ips : Option Nat → Except PyError (List Ip)

/-- What one `ssh.connect(ip, ...)` call is given as host: a candidate
address string, or Python `None` (which the source can pass when
`preferred_ip` is unset, since the loop iterates
`[self.preferred_ip] + ips`). -/
abbrev ConnAddr := Option Ip

/-- The SSH transport collaborator: `true` means the handshake succeeded,
`false` means the attempt raised `socket.error` or
`paramiko.SSHException` — the two classes `Node.connect` catches, i.e. a
single failed connection attempt. -/
structure Transport where
  try_connect : ConnAddr → Bool

/-! ### `Node` operations -/

/-- `Node.start`: asks the provider for an instance; on success stores the
returned id, on a provider error the exception propagates and
`instance_id` stays absent. -/
def Node.start (cp : CloudProvider) (n : Node) : Except PyError Node :=
  match cp.start_instance n.params n.name with
  | .error e => .error e
  | .ok iid => .ok { n with instance_id := some iid }

/-- `Node.stop`: calls `stop_instance(self.instance_id)` and then sets
`self.instance_id = None`.  The assignment is *after* the call, so if the
provider raises, the exception propagates and `instance_id` is left as it
was (the error result carries no mutated node: nothing was assigned). -/
def Node.stop (cp : CloudProvider) (n : Node) : Except PyError Node :=
  match cp.stop_instance n.instance_id with
  | .error e => .error e
  | .ok _ => .ok { n with instance_id := none }

/-- `Node.update_ips`: replaces `self.ips` with `get_ips(self.instance_id)`.
There is no `try` here — a provider error propagates to the caller. -/
def Node.update_ips (cp : CloudProvider) (n : Node) : Except PyError (List Ip × Node) :=
  match cp.get_ips n.instance_id with
  | .error e => .error e
  | .ok ips => .ok (ips, { n with ips := ips })

/-- `Node.is_alive`: `False` when `instance_id` is absent; otherwise the
run-state query is wrapped in `try/except Exception` (on error `running`
keeps its initial `False`), and when running the method calls
`self.update_ips()` *outside* any `try`, so an address-list query error
propagates.  Returns the flag together with the node state. -/
def Node.is_alive (cp : CloudProvider) (n : Node) : Except PyError (Bool × Node) :=
  if n.instance_id.isNone then .ok (false, n)
  else
    let running :=
      match cp.is_instance_running n.instance_id with
      | .ok r => r
      | .error _ => false
    if running then
      match Node.update_ips cp n with
      | .error e => .error e
      | .ok (_, n') => .ok (true, n')
    else .ok (false, n)

/-- Python truthiness of `self.preferred_ip` (`None` and the empty string
are falsy). -/
def pyTruthy : Option PyStr → Bool
  | none => false
  | some s => !s.isEmpty

/-- The observable outcome of one `Node.connect` call: the trace of host
arguments handed to the transport (in order), the returned value (`some a`
= an SSH client connected via `a`; `none` = the method returned `None`),
and the node state afterwards. -/
structure ConnectResult where
  attempts : List ConnAddr
  handle : Option ConnAddr
  node : Node
deriving DecidableEq, Repr

/-- The `for ip in [self.preferred_ip] + ips` loop body: try each host in
order; on the first success set `preferred_ip` to it when different and
return the client; when the list is exhausted return `None`. -/
def connectSweep (tr : Transport) (n : Node) : List ConnAddr → ConnectResult
  | [] => ⟨[], none, n⟩
  | ip :: rest =>
    if tr.try_connect ip then
      ⟨[ip], some ip, if ip ≠ n.preferred_ip then { n with preferred_ip := ip } else n⟩
    else
      let r := connectSweep tr n rest
      ⟨ip :: r.attempts, r.handle, r.node⟩

/-- `Node.connect`: copies `self.ips`, removes `preferred_ip` from the
copy when it is truthy (`list.remove` raises `ValueError` if it is not
in the list), and sweeps `[self.preferred_ip] + ips`.  When
`preferred_ip` is `None` the first element handed to the transport is
therefore `None` itself. -/
def Node.connect (tr : Transport) (n : Node) : Except PyError ConnectResult :=
  if pyTruthy n.preferred_ip then
    match n.preferred_ip with
    | some p =>
      if p ∈ n.ips then
        .ok (connectSweep tr n (some p :: (removeFirst n.ips p).map some))
      else .error .valueError
    | none => .ok (connectSweep tr n (none :: n.ips.map some))
  else .ok (connectSweep tr n (n.preferred_ip :: n.ips.map some))

/-! ### `Cluster.stop` -/

/-- Which collaborator side effects `Cluster.stop` performed after its
termination sweep: `repository.save_or_update`, `setup_provider.cleanup`,
`repository.delete`. -/
structure StopEffects where
  saved : Bool
  cleaned : Bool
  deleted : Bool
deriving DecidableEq, Repr

/-- `self.nodes[node.kind].remove(node)`: `KeyError` if the kind has no
group, `ValueError` if the node is not in the group's list, else the
first occurrence is dropped. -/
def groupsRemoveNode (gs : Groups) (node : Node) : Except PyError Groups :=
  match alookup gs node.kind with
  | none => .error .keyError
  | some ns =>
    if node ∈ ns then .ok (aupdate gs node.kind (removeFirst ns node))
    else .error .valueError

/-- The `for node in self.get_all_nodes()` sweep of `Cluster.stop`: the
snapshot list is fixed up front.  For a node with a (truthy) instance id
the bare `try/except` covers both `node.stop()` and the group removal, so
any error there is logged and the groups are left as they were; for a
node with no instance id the removal runs outside any `try` and its
errors propagate. -/
def stopSweep (cp : CloudProvider) : List Node → Groups → Except PyError Groups
  | [], gs => .ok gs
  | node :: rest, gs =>
    if node.instance_id.isSome then
      let gs' :=
        match Node.stop cp node with
        | .error _ => gs
        | .ok _ =>
          match groupsRemoveNode gs node with
          | .error _ => gs
          | .ok gs2 => gs2
      stopSweep cp rest gs'
    else
      match groupsRemoveNode gs node with
      | .error e => .error e
      | .ok gs2 => stopSweep cp rest gs2

/-- `Cluster.stop(force)`: sweep, then — if no node is left — cleanup and
delete; else if not `force`, persist via `save_or_update`; else cleanup
and delete regardless of the leftover nodes. -/
def Cluster.stop (cp : CloudProvider) (gs : Groups) (force : Bool) :
    Except PyError (Groups × StopEffects) :=
  match stopSweep cp (getAllNodes gs) gs with
  | .error e => .error e
  | .ok gs' =>
    if (getAllNodes gs').isEmpty then
      .ok (gs', ⟨false, true, true⟩)
    else if !force then
      .ok (gs', ⟨true, false, false⟩)
    else
      .ok (gs', ⟨false, true, true⟩)

/-! ### `Cluster.add_node` / `Cluster.remove_node` -/

/-- One character of the class `[a-zA-Z0-9-]`. -/
def kindCharOk (c : Char) : Bool :=
  (decide ('a' ≤ c) && decide (c ≤ 'z')) ||
  (decide ('A' ≤ c) && decide (c ≤ 'Z')) ||
  (decide ('0' ≤ c) && decide (c ≤ '9')) ||
  c == '-'

/-- `re.match("^[a-zA-Z0-9-]+$", s)` as a Boolean, with Python's `$`
semantics: the anchor matches at the end of the string *or just before a
single trailing newline*, so `s` matches iff `s` is one-or-more class
characters, or such a body followed by exactly one `'\n'`. -/
def kindRegexMatches (s : PyStr) : Bool :=
  (!s.isEmpty && s.all kindCharOk) ||
  (match s.getLast? with
   | some c => c == '\n' && !s.dropLast.isEmpty && s.dropLast.all kindCharOk
   | none => false)

/-- Little-endian decimal digits of `n`; the first argument is fuel
(`n` itself suffices since the value shrinks by a factor of 10 each
step). -/
def decAux : Nat → Nat → List Nat
  | 0, _ => []
  | fuel + 1, n => if n = 0 then [] else n % 10 :: decAux fuel (n / 10)

/-- Python `str(n)` for a natural number (used only with `n ≥ 1`). -/
def decChars (n : Nat) : PyStr :=
  ((decAux n n).map Nat.digitChar).reverse

/-- Python `"%03d" % n`: the decimal digits left-padded with `'0'` to
width at least 3. -/
def pad3 (n : Nat) : PyStr :=
  List.replicate (3 - (decChars n).length) '0' ++ decChars n

/-- `Cluster.add_node(kind, ..., name=None)` acting on the `self.nodes`
dict (the launch arguments and the cluster's key material are bundled in
`params`; `Node.__init__` only stores attributes, so no cloud call
happens here).  Validation happens before any mutation; an invalid
`kind` raises `ValueError` with the dict untouched.  A falsy `name`
(`None` or `""`) is replaced by `"%s%03d" % (kind, len(self.nodes[kind]) + 1)`;
no uniqueness check of any sort is performed on names. -/
def Cluster.add_node (gs : Groups) (params : LaunchParams) (kind : Kind)
    (name : Option PyStr) : Except PyError (Groups × Node) :=
  if !kindRegexMatches kind then .error .valueError
  else
    let gs1 := if containsKey gs kind then gs else gs ++ [(kind, [])]
    let cur := (alookup gs1 kind).getD []
    let name' :=
      match name with
      | none => kind ++ pad3 (cur.length + 1)
      | some nm => if nm.isEmpty then kind ++ pad3 (cur.length + 1) else nm
    let node : Node :=
      { name := name', kind := kind, params := params,
        instance_id := none, preferred_ip := none, ips := [] }
    .ok (aupdate gs1 kind (cur ++ [node]), node)

/-- `Cluster.remove_node(node)`: an unknown kind is only logged (no
change, no raise); otherwise `list.index(node)` raises `ValueError` when
the node is not in its group's list, else the node is deleted at its
first index (the `if self.nodes[node.kind][index]:` guard is always
truthy for a `Node` object). -/
def Cluster.remove_node (gs : Groups) (node : Node) : Except PyError Groups :=
  match alookup gs node.kind with
  | none => .ok gs
  | some ns =>
    if node ∈ ns then .ok (aupdate gs node.kind (removeFirst ns node))
    else .error .valueError

/-- A sequence of `add_node` calls with no explicit name (`name=None`),
one per listed kind, starting from the given groups dict. -/
def addAutoSeq (params : LaunchParams) : Groups → List Kind → Except PyError Groups
  | gs, [] => .ok gs
  | gs, k :: ks =>
    match Cluster.add_node gs params k none with
    | .error e => .error e
    | .ok (gs', _) => addAutoSeq params gs' ks

/-! ### The size-check tail of `Cluster.start` (lines 359–369) -/

/-- The final phase of `Cluster.start`: the defaulting of `min_nodes`
followed by `self._check_cluster_size(min_nodes)`.  When `min_nodes` is
falsy (`None` or an empty dict) it is rebuilt as
`{kind: len(self.nodes[kind])}` over all kinds.  Otherwise the source
runs `for group, nodes in nodes.iteritems()` — but at that point `nodes`
is the *local list* bound by `nodes = self.get_all_nodes()` at line 260
(not the `self.nodes` dict), and a Python list has no `iteritems`
attribute, so the call raises `AttributeError` before the size check is
reached. -/
def startSizeCheck (gs : Groups) (min_nodes : Option MinNodes) : Groups × Option PyError :=
  match min_nodes with
  | none => check_cluster_size gs (gs.map fun p => (p.1, (p.2.length : Int)))
  | some m =>
    if m.isEmpty then check_cluster_size gs (gs.map fun p => (p.1, (p.2.length : Int)))
    else (gs, some .attributeError)

/-! ### Proof-side tools for decimal names -/

/-- Numeric value of a little-endian decimal digit list (proof tool). -/
def valDigits : List Nat → Nat
  | [] => 0
  | d :: ds => d + 10 * valDigits ds

/-- Inverse of `Nat.digitChar` on decimal digits (proof tool). -/
def charToDigit (c : Char) : Nat := c.toNat - 48

/-- Parse a big-endian decimal character string (proof tool; a left
inverse of `pad3`, which makes `pad3` injective). -/
def parseNat (s : PyStr) : Nat :=
  s.foldl (fun a c => 10 * a + charToDigit c) 0

/-- The names `kind ++ pad3 1, …, kind ++ pad3 m` produced by `m`
auto-named `add_node` calls for one kind, in creation order. -/
def autoNames (k : Kind) (m : Nat) : List PyStr :=
  (List.range m).map (fun i => k ++ pad3 (i + 1))

/-- Invariant of a groups dict built purely by auto-named `add_node`
calls: the kinds are pairwise distinct and each group's name list is
exactly the auto-generated sequence for its length. -/
def namesInvariant (gs : Groups) : Prop :=
  (gs.map Prod.fst).Nodup ∧ ∀ p ∈ gs, p.2.map Node.name = autoNames p.1 p.2.length

/-! ### Derived predicates and concrete fixtures used by the theorems -/

/-- `n` is currently a member of the group list of its own kind. -/
def inGroup (gs : Groups) (n : Node) : Prop :=
  n ∈ (alookup gs n.kind).getD []

instance (gs : Groups) (n : Node) : Decidable (inGroup gs n) := by
  unfold inGroup
  infer_instance

/-- The amended C8 acceptance condition, stated independently of the
code's regex: `kind` is a non-empty string of characters from
`[a-zA-Z0-9-]`, or such a string followed by exactly one trailing
newline. -/
def kindOkSpec (s : PyStr) : Prop :=
  (s ≠ [] ∧ ∀ c ∈ s, kindCharOk c = true) ∨
  (∃ t, t ≠ [] ∧ (∀ c ∈ t, kindCharOk c = true) ∧ s = t ++ ['\n'])

/-- Fixture launch parameters; their contents never influence any
lifecycle behaviour. -/
def fxParams : LaunchParams := ⟨[], [], [], [], [], [], [], []⟩

/-- Fixture node builder. -/
def mkNode (name kind : PyStr) (iid : Option Nat) (pref : Option Ip) (ips : List Ip) : Node :=
  ⟨name, kind, fxParams, iid, pref, ips⟩

/-- A transport on which every connection attempt fails (with one of the
two caught exception classes). -/
def trFailAll : Transport := ⟨fun _ => false⟩

/-- A provider whose every operation succeeds blandly. -/
def cpBase : CloudProvider :=
  ⟨fun _ _ => .ok 1, fun _ => .ok (), fun _ => .ok false, fun _ => .ok []⟩

/-- A provider whose `stop_instance` always raises. -/
def cpStopErr : CloudProvider :=
  { cpBase with stop_instance := fun _ => .error .instanceError }

/-- A provider whose run-state query always raises. -/
def cpRunErr : CloudProvider :=
  { cpBase with is_instance_running := fun _ => .error .timeoutError }

/-- A provider that reports every instance running but whose address-list
query always raises. -/
def cpIpsErr : CloudProvider :=
  { cpBase with
    is_instance_running := fun _ => .ok true,
    get_ips := fun _ => .error .instanceError }

/-- Fixture node with a backing instance. -/
def fxN : Node := mkNode ['x'] ['a'] (some 5) none []

/-- One-node fixture cluster holding `fxN`. -/
def fxGs1 : Groups := [(['a'], [fxN])]

/-- The C9 counterexample run: two auto-named nodes of kind `a`, remove
the first, auto-add a third; returns the final list of node names. -/
def c9Names : Except PyError (List PyStr) := do
  let (g1, n1) ← Cluster.add_node [] fxParams ['a'] none
  let (g2, _) ← Cluster.add_node g1 fxParams ['a'] none
  let g3 ← Cluster.remove_node g2 n1
  let (g4, _) ← Cluster.add_node g3 fxParams ['a'] none
  pure ((getAllNodes g4).map Node.name)

/-- The groups produced by three auto-named `add_node` calls
(kinds `a`, `a`, `b`) from an empty cluster. -/
def fxGsAuto : Groups :=
  [(['a'], [mkNode ['a', '0', '0', '1'] ['a'] none none [],
            mkNode ['a', '0', '0', '2'] ['a'] none none []]),
   (['b'], [mkNode ['b', '0', '0', '1'] ['b'] none none []])]

/-- Rebalancing fixture: one node of kind `a`, three of kind `b`. -/
def fxGsR : Groups :=
  [(['a'], [mkNode ['p'] ['a'] (some 1) none []]),
   (['b'], [mkNode ['q', '1'] ['b'] (some 2) none [],
            mkNode ['q', '2'] ['b'] (some 3) none [],
            mkNode ['q', '3'] ['b'] (some 4) none []])]

/-- The spec's feasible minimums `{a: 2, b: 1}` used with `fxGsR`. -/
def fxMinsR : MinNodes := [(['a'], 2), (['b'], 1)]

/-- The rebalanced result of `fxGsR` under `fxMinsR`: the most recently
appended `b` node now resides in group `a`, its `kind` field still
reading `b`. -/
def fxGsR' : Groups :=
  [(['a'], [mkNode ['p'] ['a'] (some 1) none [],
            mkNode ['q', '3'] ['b'] (some 4) none []]),
   (['b'], [mkNode ['q', '1'] ['b'] (some 2) none [],
            mkNode ['q', '2'] ['b'] (some 3) none []])]

end Elasticluster

namespace Elasticluster

/-! ### First theorems: C2 -/

/-- C2: if the sum of all minimums exceeds the total node count, then
`_check_cluster_size` raises `ClusterError` and the groups mapping is
completely unchanged: the guard `len(self.get_all_nodes()) < minimum_nodes`
is evaluated before any node is moved, evicted or otherwise touched (and
the method performs no cloud call at all, so nothing is terminated). -/
theorem check_cluster_size_infeasible_total (gs : Groups) (mins : MinNodes)
    (h : ((getAllNodes gs).length : Int) < sumMins mins) :
    check_cluster_size gs mins = (gs, some PyError.clusterError) := by
  unfold check_cluster_size
  simp [h]

/-- Witness for C2 at the spec's own example: minimums `{a:3, b:3}` over
actual counts `{a:1, b:1}`. -/
theorem check_cluster_size_infeasible_total_witness :
    (((getAllNodes [(['a'], [mkNode ['y'] ['a'] (some 1) none []]),
        (['b'], [mkNode ['z'] ['b'] (some 2) none []])]).length : Int) <
      sumMins [(['a'], 3), (['b'], 3)]) ∧
    check_cluster_size
      [(['a'], [mkNode ['y'] ['a'] (some 1) none []]),
       (['b'], [mkNode ['z'] ['b'] (some 2) none []])]
      [(['a'], 3), (['b'], 3)] =
      ([(['a'], [mkNode ['y'] ['a'] (some 1) none []]),
        (['b'], [mkNode ['z'] ['b'] (some 2) none []])], some PyError.clusterError) :=
  ⟨by decide,
   check_cluster_size_infeasible_total
     [(['a'], [mkNode ['y'] ['a'] (some 1) none []]),
      (['b'], [mkNode ['z'] ['b'] (some 2) none []])]
     [(['a'], 3), (['b'], 3)] (by decide)⟩

/-! ### C1: the `min_nodes` defaulting in `Cluster.start` -/

/-- C1 fails on the code: with any non-empty `min_nodes` mapping (here a
one-kind cluster and the complete mapping `{a: 1}`), the defaulting loop
`for group, nodes in nodes.iteritems()` is run on the *local list*
`nodes` (bound at line 260 to `self.get_all_nodes()`), not on the
`self.nodes` dict, and a list has no `iteritems` attribute: `start`
raises `AttributeError` before the size check instead of defaulting the
missing kinds. -/
theorem start_partial_min_nodes_attribute_error :
    startSizeCheck [(['a'], [fxN])] (some [(['a'], 1)]) =
      ([(['a'], [fxN])], some PyError.attributeError) := rfl

/-! ### C4: `Node.stop` and `instance_id` -/

/-- C4 counterexample: a node whose terminate call raises.  `Node.stop`
propagates the exception, and since the assignment
`self.instance_id = None` sits *after* the provider call, it never runs:
the node keeps `instance_id = 5` instead of it being "always cleared". -/
theorem node_stop_error_keeps_instance_id :
    Node.stop cpStopErr fxN = .error .instanceError ∧ fxN.instance_id = some 5 :=
  ⟨rfl, rfl⟩

/-- C4 amended: `Node.stop` clears `instance_id` whenever the terminate
call returns (its result value is ignored, so an ambiguous result still
clears), but when the terminate call raises, the exception propagates and
`instance_id` is left unchanged. -/
theorem node_stop_clear_behaviour (cp : CloudProvider) (n : Node) :
    (∀ u, cp.stop_instance n.instance_id = .ok u →
      Node.stop cp n = .ok { n with instance_id := none }) ∧
    (∀ e, cp.stop_instance n.instance_id = .error e → Node.stop cp n = .error e) := by
  constructor <;> intro x h <;> simp [Node.stop, h]

/-- Witness for `node_stop_clear_behaviour` on a succeeding provider. -/
theorem node_stop_clear_behaviour_witness :
    Node.stop cpBase fxN = .ok { fxN with instance_id := none } :=
  (node_stop_clear_behaviour cpBase fxN).1 () rfl

/-! ### C5 / C6: `Node.connect` -/

/-- C5 fails on the code: with `preferred_ip` set to an address that is
not among the candidates (here candidates are empty), `ips.remove(self.preferred_ip)`
raises `ValueError` before any connection attempt, so `connect` raises
instead of returning `None` even though every attempt (vacuously) fails. -/
theorem connect_missing_preferred_raises :
    Node.connect trFailAll (mkNode ['x'] ['a'] (some 1) (some ['A']) []) =
      .error .valueError := rfl

/-- C6 fails on the code: with no preferred address and candidates
`[A, B, C]`, the loop iterates `[self.preferred_ip] + ips`, so the first
host handed to the transport is Python `None` (which `ssh.connect`
resolves to localhost) — the attempt order is `[None, A, B, C]`, not the
candidate list `[A, B, C]` in stored order as claimed. -/
theorem connect_unset_preferred_tries_none_first :
    Node.connect trFailAll (mkNode ['x'] ['a'] (some 1) none [['A'], ['B'], ['C']]) =
      .ok ⟨[none, some ['A'], some ['B'], some ['C']], none,
           mkNode ['x'] ['a'] (some 1) none [['A'], ['B'], ['C']]⟩ ∧
    ([none, some ['A'], some ['B'], some ['C']] : List ConnAddr) ≠
      [some ['A'], some ['B'], some ['C']] :=
  ⟨rfl, by decide⟩

/-! ### C7: `Node.is_alive` and collaborator query failures -/

/-- C7 counterexample: a provider whose run-state query reports running
but whose address-list query raises.  `is_alive` calls
`self.update_ips()` outside any `try`, so the address-list error
propagates out of `is_alive` to the caller. -/
theorem is_alive_propagates_get_ips_error :
    Node.is_alive cpIpsErr fxN = .error .instanceError := rfl

/-- C7 amended: a failure of the run-state query is caught inside
`is_alive` (`running` keeps its initial `False`), the node state is left
unchanged and `False` is returned; but a failure of the address-list
query, reached when the run-state query reports running, propagates out
of `is_alive` uncaught. -/
theorem is_alive_query_error_behaviour (cp : CloudProvider) (n : Node) (iid : Nat)
    (hiid : n.instance_id = some iid) :
    (∀ e, cp.is_instance_running (some iid) = .error e →
      Node.is_alive cp n = .ok (false, n)) ∧
    (∀ e, cp.is_instance_running (some iid) = .ok true →
      cp.get_ips (some iid) = .error e → Node.is_alive cp n = .error e) := by
  constructor
  · intro e h
    simp [Node.is_alive, hiid, h]
  · intro e h1 h2
    simp [Node.is_alive, Node.update_ips, hiid, h1, h2]

/-- Witness for `is_alive_query_error_behaviour`: a failing run-state
query yields `False` with the node untouched. -/
theorem is_alive_query_error_behaviour_witness :
    Node.is_alive cpRunErr fxN = .ok (false, fxN) :=
  (is_alive_query_error_behaviour cpRunErr fxN 5 rfl).1 .timeoutError rfl

/-! ### Association-list lemmas -/

theorem alookup_aupdate_ne {β : Type} (gs : List (Kind × β)) (k k' : Kind) (v : β)
    (h : k' ≠ k) : alookup (aupdate gs k v) k' = alookup gs k' := by
  induction gs with
  | nil => rfl
  | cons p rest ih =>
    obtain ⟨k0, v0⟩ := p
    by_cases hk : k0 = k
    · subst hk
      simp [aupdate, alookup, Ne.symm h]
    · by_cases hk' : k0 = k'
      · simp [aupdate, alookup, hk, hk', h]
      · simp [aupdate, alookup, hk, hk', ih]

theorem alookup_aupdate_self {β : Type} (gs : List (Kind × β)) (k : Kind) (v w : β)
    (h : alookup gs k = some w) : alookup (aupdate gs k v) k = some v := by
  induction gs with
  | nil => cases h
  | cons p rest ih =>
    obtain ⟨k0, v0⟩ := p
    by_cases hk : k0 = k
    · subst hk
      simp [aupdate, alookup]
    · simp only [alookup, if_neg hk] at h
      simp [aupdate, alookup, hk, ih h]

theorem mem_removeFirst_of_ne {α : Type} [DecidableEq α] (l : List α) (x n : α)
    (hmem : n ∈ l) (hne : n ≠ x) : n ∈ removeFirst l x := by
  induction l with
  | nil => cases hmem
  | cons a t ih =>
    by_cases hax : a = x
    · subst hax
      simp only [removeFirst, if_pos rfl]
      rcases List.mem_cons.mp hmem with h | h
      · exact absurd h hne
      · exact h
    · simp only [removeFirst, if_neg hax]
      rcases List.mem_cons.mp hmem with h | h
      · exact h ▸ List.mem_cons_self a _
      · exact List.mem_cons_of_mem a (ih h)

/-- Removing some other node `m` from its group never evicts `n`. -/
theorem inGroup_groupsRemoveNode (gs gs2 : Groups) (m n : Node) (hne : n ≠ m)
    (hn : inGroup gs n) (h : groupsRemoveNode gs m = .ok gs2) : inGroup gs2 n := by
  unfold groupsRemoveNode at h
  cases hl : alookup gs m.kind with
  | none => simp only [hl] at h; cases h
  | some ns =>
    simp only [hl] at h
    by_cases hm : m ∈ ns
    · rw [if_pos hm] at h
      injection h with h
      subst h
      unfold inGroup at hn ⊢
      by_cases hk : n.kind = m.kind
      · rw [hk] at hn ⊢
        rw [alookup_aupdate_self gs m.kind _ ns hl]
        rw [hl] at hn
        exact mem_removeFirst_of_ne ns m n hn hne
      · rw [alookup_aupdate_ne gs m.kind n.kind _ hk]
        exact hn
    · rw [if_neg hm] at h
      cases h

/-- Through the `Cluster.stop` sweep, a node whose terminate call fails
is never evicted: its own iteration is swallowed by the bare
`try/except` with the groups untouched, and other nodes' removals only
drop nodes different from it. -/
theorem stopSweep_keeps_failing_node (cp : CloudProvider) (n : Node) (err : PyError)
    (hn : n.instance_id.isSome = true)
    (hfail : cp.stop_instance n.instance_id = .error err) :
    ∀ (lst : List Node) (gs gs' : Groups), stopSweep cp lst gs = .ok gs' →
      inGroup gs n → inGroup gs' n := by
  intro lst
  induction lst with
  | nil =>
    intro gs gs' h hg
    injection h with h
    exact h ▸ hg
  | cons m rest ih =>
    intro gs gs' h hg
    by_cases hms : m.instance_id.isSome
    · simp only [stopSweep, if_pos hms] at h
      refine ih _ _ h ?_
      by_cases hmn : m = n
      · subst hmn
        have hstop : Node.stop cp m = .error err := by
          unfold Node.stop
          rw [hfail]
        rw [hstop]
        exact hg
      · cases hstop : Node.stop cp m with
        | error e => exact hg
        | ok m' =>
          cases hrem : groupsRemoveNode gs m with
          | error e => exact hg
          | ok gs2 =>
            exact inGroup_groupsRemoveNode gs gs2 m n (fun hc => hmn hc.symm) hg hrem
    · simp only [stopSweep, if_neg hms] at h
      cases hrem : groupsRemoveNode gs m with
      | error e => rw [hrem] at h; cases h
      | ok gs2 =>
        rw [hrem] at h
        have hmn : n ≠ m := by
          intro hc
          rw [hc] at hn
          exact hms (by exact hn)
        exact ih _ _ h (inGroup_groupsRemoveNode gs gs2 m n hmn hg hrem)

/-- A node in some group is in the concatenation of all groups. -/
theorem mem_getAllNodes_of_inGroup (gs : Groups) (n : Node) (h : inGroup gs n) :
    n ∈ getAllNodes gs := by
  induction gs with
  | nil => exact absurd h (by simp [inGroup, alookup])
  | cons p rest ih =>
    obtain ⟨k, ns⟩ := p
    unfold inGroup at h
    by_cases hk : k = n.kind
    · simp only [alookup, if_pos hk] at h
      exact List.mem_append_left _ h
    · simp only [alookup, if_neg hk] at h
      exact List.mem_append_right _ (ih h)

/-! ### C3: `Cluster.stop` with a node whose termination fails -/

/-- C3 amended: for a cluster containing a node with a backing instance
whose terminate call raises, `stop(force=False)` leaves that node in its
group, persists via `save_or_update` and calls neither `cleanup` nor
`delete`; `stop(force=True)` calls `cleanup` and deletes the persisted
record, but the failed node is *not* evicted from its group — the whole
cluster record, node included, is simply force-removed. -/
theorem stop_failed_termination (cp : CloudProvider) (n : Node) (err : PyError)
    (gs : Groups) (hn : n.instance_id.isSome = true) (hmem : inGroup gs n)
    (hfail : cp.stop_instance n.instance_id = .error err) :
    (∀ gs' eff, Cluster.stop cp gs false = .ok (gs', eff) →
      inGroup gs' n ∧ eff = ⟨true, false, false⟩) ∧
    (∀ gs' eff, Cluster.stop cp gs true = .ok (gs', eff) →
      inGroup gs' n ∧ eff = ⟨false, true, true⟩) := by
  have main : ∀ (force : Bool) gs' eff, Cluster.stop cp gs force = .ok (gs', eff) →
      inGroup gs' n ∧ gs' = gs' ∧
        eff = if force then ⟨false, true, true⟩ else ⟨true, false, false⟩ := by
    intro force gs' eff h
    unfold Cluster.stop at h
    cases hsw : stopSweep cp (getAllNodes gs) gs with
    | error e => simp only [hsw] at h; cases h
    | ok gs0 =>
      have hg0 : inGroup gs0 n :=
        stopSweep_keeps_failing_node cp n err hn hfail _ gs gs0 hsw hmem
      have hne : (getAllNodes gs0).isEmpty = false := by
        have hmem0 := mem_getAllNodes_of_inGroup gs0 n hg0
        cases hE : getAllNodes gs0 with
        | nil => rw [hE] at hmem0; cases hmem0
        | cons a t => rfl
      cases force with
      | false =>
        simp [hsw, hne] at h
        obtain ⟨h1, h2⟩ := h
        subst h1; subst h2
        exact ⟨hg0, rfl, rfl⟩
      | true =>
        simp [hsw, hne] at h
        obtain ⟨h1, h2⟩ := h
        subst h1; subst h2
        exact ⟨hg0, rfl, rfl⟩
  exact ⟨fun gs' eff h => ⟨(main false gs' eff h).1, (main false gs' eff h).2.2⟩,
         fun gs' eff h => ⟨(main true gs' eff h).1, (main true gs' eff h).2.2⟩⟩

/-- C3 counterexample to the claim as stated: on a one-node cluster whose
only node fails to terminate, `stop(force=True)` runs `cleanup` and
`delete` — but the node is still in its group afterwards, contradicting
"evicts the node regardless". -/
theorem stop_force_does_not_evict :
    Cluster.stop cpStopErr fxGs1 true = .ok (fxGs1, ⟨false, true, true⟩) ∧
    inGroup fxGs1 fxN :=
  ⟨rfl, by decide⟩

/-- Witness for `stop_failed_termination`: the `force=False` half on the
same fixture cluster. -/
theorem stop_failed_termination_witness :
    Cluster.stop cpStopErr fxGs1 false = .ok (fxGs1, ⟨true, false, false⟩) ∧
    inGroup fxGs1 fxN :=
  ⟨rfl,
   ((stop_failed_termination cpStopErr fxN .instanceError fxGs1 rfl (by decide) rfl).1
     fxGs1 ⟨true, false, false⟩ rfl).1⟩

/-! ### C8: `add_node` kind validation -/

/-- The code's regex test, characterised: it accepts exactly the strings
of the amended condition (the trailing-newline form comes from Python's
`$` matching just before one final newline). -/
theorem kindRegexMatches_iff (s : PyStr) : kindRegexMatches s = true ↔ kindOkSpec s := by
  rcases List.eq_nil_or_concat s with hs | ⟨L, b, hs⟩
  · subst hs
    simp [kindRegexMatches, kindOkSpec]
  · subst hs
    simp only [List.concat_eq_append]
    simp only [kindRegexMatches, List.getLast?_concat, List.dropLast_concat]
    constructor
    · intro h
      rcases (Bool.or_eq_true _ _).mp h with h1 | h2
      · left
        obtain ⟨-, hall⟩ := (Bool.and_eq_true _ _).mp h1
        exact ⟨by simp, List.all_eq_true.mp hall⟩
      · right
        obtain ⟨hb', hall⟩ := (Bool.and_eq_true _ _).mp h2
        obtain ⟨hb, hne⟩ := (Bool.and_eq_true _ _).mp hb'
        refine ⟨L, ?_, List.all_eq_true.mp hall, ?_⟩
        · rw [Bool.not_eq_true', List.isEmpty_eq_false] at hne
          exact hne
        · rw [beq_iff_eq] at hb
          rw [hb]
    · rintro (⟨-, hall⟩ | ⟨t, ht, hallt, heq⟩)
      · refine (Bool.or_eq_true _ _).mpr (Or.inl ?_)
        exact (Bool.and_eq_true _ _).mpr ⟨by simp, List.all_eq_true.mpr hall⟩
      · refine (Bool.or_eq_true _ _).mpr (Or.inr ?_)
        obtain ⟨hLt, hb⟩ := List.append_inj' heq (by simp)
        have hb' : b = '\n' := by injection hb
        subst hLt
        refine (Bool.and_eq_true _ _).mpr ⟨(Bool.and_eq_true _ _).mpr ⟨?_, ?_⟩, ?_⟩
        · simp [hb']
        · rw [Bool.not_eq_true', List.isEmpty_eq_false]
          exact ht
        · exact List.all_eq_true.mpr hallt

/-- C8 counterexample: `kind = "a\n"` contains `'\n'`, a character
outside `[a-zA-Z0-9-]`, yet `add_node` accepts it (Python's `$` matches
before the trailing newline), contradicting "raises for any string
containing any other character". -/
theorem add_node_accepts_trailing_newline :
    (Cluster.add_node [] fxParams ['a', '\n'] none).isOk = true ∧
    kindCharOk '\n' = false :=
  ⟨rfl, by decide⟩

/-- C8 amended: `add_node` succeeds exactly when `kind` is a non-empty
string over `[a-zA-Z0-9-]` optionally followed by one trailing newline;
for every other string it raises `ValueError` — the validation is the
method's first statement, before any mutation of `self.nodes`, and
`Node.__init__` performs no cloud call. -/
theorem add_node_accepts_exactly (gs : Groups) (params : LaunchParams)
    (name : Option PyStr) (kind : Kind) :
    ((Cluster.add_node gs params kind name).isOk = true ↔ kindOkSpec kind) ∧
    (¬ kindOkSpec kind → Cluster.add_node gs params kind name = .error .valueError) := by
  cases h : kindRegexMatches kind with
  | true =>
    have hk : kindOkSpec kind := (kindRegexMatches_iff kind).mp h
    refine ⟨?_, fun hn => absurd hk hn⟩
    simp [Cluster.add_node, h, Except.isOk, Except.toBool, hk]
  | false =>
    have hk : ¬ kindOkSpec kind := fun hs => by
      have hh := (kindRegexMatches_iff kind).mpr hs
      rw [h] at hh
      cases hh
    refine ⟨?_, fun _ => by simp [Cluster.add_node, h]⟩
    simp [Cluster.add_node, h, Except.isOk, Except.toBool, hk]

/-- Witness for `add_node_accepts_exactly` at the valid kind `"a"`. -/
theorem add_node_accepts_exactly_witness :
    (Cluster.add_node [] fxParams ['a'] none).isOk = true :=
  (add_node_accepts_exactly [] fxParams none ['a']).1.mpr
    (Or.inl ⟨by decide, by decide⟩)

/-! ### Decimal-name lemmas for C9 -/

theorem valDigits_decAux : ∀ (fuel n : Nat), n ≤ fuel → valDigits (decAux fuel n) = n := by
  intro fuel
  induction fuel with
  | zero =>
    intro n h
    have h0 : n = 0 := Nat.le_zero.mp h
    subst h0
    rfl
  | succ f ih =>
    intro n h
    by_cases h0 : n = 0
    · subst h0; rfl
    · simp only [decAux, if_neg h0, valDigits]
      have hdiv : n / 10 ≤ f := by
        have := Nat.div_lt_self (Nat.pos_of_ne_zero h0) (by norm_num : 1 < 10)
        omega
      rw [ih _ hdiv]
      omega

theorem decAux_lt_base : ∀ (fuel n : Nat), ∀ d ∈ decAux fuel n, d < 10 := by
  intro fuel
  induction fuel with
  | zero => intro n d hd; cases hd
  | succ f ih =>
    intro n d hd
    by_cases h0 : n = 0
    · subst h0; cases hd
    · simp only [decAux, if_neg h0] at hd
      rcases List.mem_cons.mp hd with h | h
      · subst h; omega
      · exact ih _ d h

theorem charToDigit_digitChar (d : Nat) (h : d < 10) :
    charToDigit (Nat.digitChar d) = d := by
  interval_cases d <;> rfl

theorem parseNat_rev_digits (ds : List Nat) (hds : ∀ d ∈ ds, d < 10) (acc : Nat) :
    List.foldl (fun a c => 10 * a + charToDigit c) acc ((ds.map Nat.digitChar).reverse) =
      acc * 10 ^ ds.length + valDigits ds := by
  induction ds generalizing acc with
  | nil => simp [valDigits]
  | cons d ds ih =>
    have hd : d < 10 := hds d (List.mem_cons_self _ _)
    have hds' : ∀ x ∈ ds, x < 10 := fun x hx => hds x (List.mem_cons_of_mem _ hx)
    simp only [List.map_cons, List.reverse_cons, List.foldl_append, List.foldl_cons,
      List.foldl_nil]
    rw [ih hds', charToDigit_digitChar d hd]
    simp only [valDigits, List.length_cons]
    ring

theorem parseNat_decChars (n : Nat) : parseNat (decChars n) = n := by
  unfold parseNat decChars
  rw [parseNat_rev_digits _ (decAux_lt_base n n) 0]
  simp [valDigits_decAux n n (le_refl n)]

theorem parseNat_zeros (k : Nat) :
    List.foldl (fun a c => 10 * a + charToDigit c) 0 (List.replicate k '0') = 0 := by
  induction k with
  | zero => rfl
  | succ k ih =>
    simp only [List.replicate_succ, List.foldl_cons]
    exact ih

theorem parseNat_pad3 (n : Nat) : parseNat (pad3 n) = n := by
  unfold pad3
  unfold parseNat
  rw [List.foldl_append, parseNat_zeros]
  exact parseNat_decChars n

theorem pad3_injective : Function.Injective pad3 := by
  intro a b h
  rw [← parseNat_pad3 a, ← parseNat_pad3 b, h]

theorem decAux_length_le : ∀ (fuel n k : Nat), n < 10 ^ k → (decAux fuel n).length ≤ k := by
  intro fuel
  induction fuel with
  | zero => intro n k _; simp [decAux]
  | succ f ih =>
    intro n k h
    by_cases h0 : n = 0
    · subst h0; simp [decAux]
    · simp only [decAux, if_neg h0, List.length_cons]
      cases k with
      | zero => simp at h; omega
      | succ k' =>
        have hlt : n / 10 < 10 ^ k' := by
          rw [pow_succ] at h
          omega
        exact Nat.succ_le_succ (ih _ _ hlt)

theorem pad3_length (n : Nat) (h : n < 1000) : (pad3 n).length = 3 := by
  have hlen : (decChars n).length ≤ 3 := by
    unfold decChars
    simp only [List.length_reverse, List.length_map]
    exact decAux_length_le n n 3 (by simpa using h)
  unfold pad3
  simp only [List.length_append, List.length_replicate]
  omega

/-! ### Association-list lemmas for C9 -/

theorem map_fst_aupdate {β : Type} (gs : List (Kind × β)) (k : Kind) (v : β) :
    (aupdate gs k v).map Prod.fst = gs.map Prod.fst := by
  induction gs with
  | nil => rfl
  | cons p rest ih =>
    obtain ⟨k0, v0⟩ := p
    by_cases hk : k0 = k
    · subst hk; simp [aupdate]
    · simp [aupdate, hk, ih]

theorem mem_aupdate {β : Type} (gs : List (Kind × β)) (k : Kind) (v : β) (p : Kind × β)
    (hp : p ∈ aupdate gs k v) : p = (k, v) ∨ p ∈ gs := by
  induction gs with
  | nil => cases hp
  | cons q rest ih =>
    obtain ⟨k0, v0⟩ := q
    by_cases hk : k0 = k
    · subst hk
      simp only [aupdate, if_pos rfl] at hp
      rcases List.mem_cons.mp hp with h | h
      · exact Or.inl h
      · exact Or.inr (List.mem_cons_of_mem _ h)
    · simp only [aupdate, if_neg hk] at hp
      rcases List.mem_cons.mp hp with h | h
      · exact Or.inr (h ▸ List.mem_cons_self _ _)
      · rcases ih h with h' | h'
        · exact Or.inl h'
        · exact Or.inr (List.mem_cons_of_mem _ h')

theorem not_mem_keys_of_alookup_none {β : Type} (gs : List (Kind × β)) (k : Kind)
    (h : alookup gs k = none) : k ∉ gs.map Prod.fst := by
  induction gs with
  | nil => intro hc; cases hc
  | cons p rest ih =>
    obtain ⟨k0, v0⟩ := p
    by_cases hk : k0 = k
    · simp only [alookup, if_pos hk] at h
      cases h
    · simp only [alookup, if_neg hk] at h
      simp only [List.map_cons, List.mem_cons]
      rintro (h1 | h2)
      · exact hk h1.symm
      · exact ih h h2

theorem alookup_append_left_none {β : Type} (gs l : List (Kind × β)) (k : Kind)
    (h : alookup gs k = none) : alookup (gs ++ l) k = alookup l k := by
  induction gs with
  | nil => rfl
  | cons p rest ih =>
    obtain ⟨k0, v0⟩ := p
    by_cases hk : k0 = k
    · simp only [alookup, if_pos hk] at h
      cases h
    · simp only [alookup, if_neg hk] at h
      rw [List.cons_append]
      simp only [alookup, if_neg hk]
      exact ih h

theorem alookup_some_mem {β : Type} (gs : List (Kind × β)) (k : Kind) (v : β)
    (h : alookup gs k = some v) : (k, v) ∈ gs := by
  induction gs with
  | nil => cases h
  | cons p rest ih =>
    obtain ⟨k0, v0⟩ := p
    by_cases hk : k0 = k
    · subst hk
      simp only [alookup, if_pos rfl] at h
      injection h with h
      exact h ▸ List.mem_cons_self _ _
    · simp only [alookup, if_neg hk] at h
      exact List.mem_cons_of_mem _ (ih h)

/-! ### C9: the naming invariant of auto-named `add_node` -/

/-- One auto-named `add_node` call preserves the naming invariant. -/
theorem add_auto_invariant (gs gs' : Groups) (params : LaunchParams) (k : Kind) (nd : Node)
    (hinv : namesInvariant gs) (h : Cluster.add_node gs params k none = .ok (gs', nd)) :
    namesInvariant gs' := by
  unfold Cluster.add_node at h
  cases hre : kindRegexMatches k with
  | false => rw [hre] at h; cases h
  | true =>
    rw [hre] at h
    simp only [Bool.not_true] at h
    set gs1 := if containsKey gs k = true then gs else gs ++ [(k, [])] with hgs1
    set cur := (alookup gs1 k).getD [] with hcur
    have hinv1 : namesInvariant gs1 := by
      rw [hgs1]
      by_cases hc : containsKey gs k = true
      · simpa [hc] using hinv
      · rw [if_neg hc]
        constructor
        · have hk : k ∉ gs.map Prod.fst :=
            not_mem_keys_of_alookup_none gs k
              (Option.not_isSome_iff_eq_none.mp (by simpa [containsKey] using hc))
          simp [List.nodup_append, hinv.1, hk]
        · intro p hp
          rcases List.mem_append.mp hp with h' | h'
          · exact hinv.2 p h'
          · have hp' : p = (k, ([] : List Node)) := by simpa using h'
            subst hp'
            simp [autoNames]
    have hlook : alookup gs1 k = some cur := by
      have hsome : (alookup gs1 k).isSome = true := by
        rw [hgs1]
        by_cases hc : containsKey gs k = true
        · rw [if_pos hc]
          simpa [containsKey] using hc
        · rw [if_neg hc]
          have hnone : alookup gs k = none :=
            Option.not_isSome_iff_eq_none.mp (by simpa [containsKey] using hc)
          rw [alookup_append_left_none gs _ k hnone]
          simp [alookup]
      obtain ⟨w, hw⟩ := Option.isSome_iff_exists.mp hsome
      rw [hcur, hw]
      rfl
    have hmemcur : (k, cur) ∈ gs1 := alookup_some_mem gs1 k cur hlook
    injection h with h
    injection h with hgs' hnd
    subst hgs'
    constructor
    · rw [map_fst_aupdate]
      exact hinv1.1
    · intro p hp
      rcases mem_aupdate _ _ _ _ hp with h' | h'
      · subst h'
        simp only [List.map_append, List.length_append]
        rw [hinv1.2 (k, cur) hmemcur]
        simp only [List.map_cons, List.map_nil, List.length_cons, List.length_nil]
        rw [show cur.length + (0 + 1) = cur.length + 1 by omega]
        unfold autoNames
        rw [List.range_succ, List.map_append]
        rfl
      · exact hinv1.2 p h'

/-- The naming invariant holds after any auto-named `add_node` sequence
from a state satisfying it. -/
theorem addAutoSeq_invariant (params : LaunchParams) :
    ∀ (kinds : List Kind) (gs gs' : Groups), namesInvariant gs →
      addAutoSeq params gs kinds = .ok gs' → namesInvariant gs' := by
  intro kinds
  induction kinds with
  | nil =>
    intro gs gs' hinv h
    injection h with h
    exact h ▸ hinv
  | cons k ks ih =>
    intro gs gs' hinv h
    unfold addAutoSeq at h
    cases ha : Cluster.add_node gs params k none with
    | error e => rw [ha] at h; cases h
    | ok r =>
      obtain ⟨gs1, nd⟩ := r
      rw [ha] at h
      exact ih gs1 gs' (add_auto_invariant gs gs1 params k nd hinv ha) h

theorem mem_getAllNodes_entry (gs : Groups) (g : Kind) (ns : List Node) (n : Node)
    (h1 : (g, ns) ∈ gs) (h2 : n ∈ ns) : n ∈ getAllNodes gs := by
  induction gs with
  | nil => cases h1
  | cons p rest ih =>
    rcases List.mem_cons.mp h1 with h | h
    · subst h
      exact List.mem_append_left _ h2
    · exact List.mem_append_right _ (ih h)

theorem exists_entry_of_mem_getAllNodes (gs : Groups) (n : Node)
    (h : n ∈ getAllNodes gs) : ∃ p ∈ gs, n ∈ p.2 := by
  induction gs with
  | nil => cases h
  | cons p rest ih =>
    rcases List.mem_append.mp h with h' | h'
    · exact ⟨p, List.mem_cons_self _ _, h'⟩
    · obtain ⟨q, hq1, hq2⟩ := ih h'
      exact ⟨q, List.mem_cons_of_mem _ hq1, hq2⟩

/-- Membership in the auto-name list. -/
theorem mem_autoNames (k : Kind) (m : Nat) (x : PyStr) (h : x ∈ autoNames k m) :
    ∃ i, i < m ∧ x = k ++ pad3 (i + 1) := by
  unfold autoNames at h
  obtain ⟨i, hi, hx⟩ := List.mem_map.mp h
  exact ⟨i, List.mem_range.mp hi, hx.symm⟩

/-- Under the naming invariant with at most 999 nodes per kind, all node
names across all groups are pairwise distinct. -/
theorem names_nodup_of_invariant :
    ∀ (gs : Groups), namesInvariant gs → (∀ p ∈ gs, p.2.length ≤ 999) →
      ((getAllNodes gs).map Node.name).Nodup := by
  intro gs
  induction gs with
  | nil => intro _ _; simp [getAllNodes]
  | cons p rest ih =>
    intro hinv hbound
    obtain ⟨k, ns⟩ := p
    have hkeys := hinv.1
    simp only [List.map_cons, List.nodup_cons] at hkeys
    have hinvrest : namesInvariant rest :=
      ⟨hkeys.2, fun q hq => hinv.2 q (List.mem_cons_of_mem _ hq)⟩
    have hboundrest : ∀ q ∈ rest, q.2.length ≤ 999 :=
      fun q hq => hbound q (List.mem_cons_of_mem _ hq)
    have hns : ns.map Node.name = autoNames k ns.length :=
      hinv.2 (k, ns) (List.mem_cons_self _ _)
    have hnslen : ns.length ≤ 999 := hbound (k, ns) (List.mem_cons_self _ _)
    show ((ns ++ getAllNodes rest).map Node.name).Nodup
    rw [List.map_append, List.nodup_append]
    refine ⟨?_, ih hinvrest hboundrest, ?_⟩
    · rw [hns]
      unfold autoNames
      refine List.Nodup.map ?_ (List.nodup_range ns.length)
      intro a b hab
      have := List.append_cancel_left hab
      have := pad3_injective this
      omega
    · intro x hx hx'
      rw [hns] at hx
      obtain ⟨i, hi, hxi⟩ := mem_autoNames k ns.length x hx
      obtain ⟨n, hn, hnx⟩ := List.mem_map.mp hx'
      obtain ⟨q, hq, hnq⟩ := exists_entry_of_mem_getAllNodes rest n hn
      obtain ⟨k', ns'⟩ := q
      have hns' : ns'.map Node.name = autoNames k' ns'.length := hinvrest.2 _ hq
      have hx'' : x ∈ autoNames k' ns'.length := by
        rw [← hns']
        rw [← hnx]
        exact List.mem_map_of_mem _ hnq
      obtain ⟨j, hj, hxj⟩ := mem_autoNames k' ns'.length x hx''
      have hlen' : ns'.length ≤ 999 := hboundrest _ hq
      have heq : k ++ pad3 (i + 1) = k' ++ pad3 (j + 1) := by rw [← hxi, hxj]
      have hlens : (pad3 (i + 1)).length = (pad3 (j + 1)).length := by
        rw [pad3_length _ (by omega), pad3_length _ (by omega)]
      obtain ⟨hkk, -⟩ := List.append_inj' heq hlens
      apply hkeys.1
      rw [hkk]
      exact List.mem_map_of_mem Prod.fst hq

/-- C9 counterexample: auto-derived names are *not* unique after a
removal.  Adding `a001`, `a002`, removing `a001` and auto-adding again
derives the name from `len(self.nodes['a']) + 1 = 2`, yielding a second
node named `a002`. -/
theorem auto_names_collide_after_remove :
    c9Names = .ok [['a', '0', '0', '2'], ['a', '0', '0', '2']] ∧
    ¬ ([['a', '0', '0', '2'], ['a', '0', '0', '2']] : List PyStr).Nodup :=
  ⟨rfl, by decide⟩

/-- C9 amended: node names are unique across all groups after any
sequence of `add_node` calls with *auto-derived* names and *no removals*,
provided no kind exceeds 999 nodes; uniqueness is not enforced by the
code itself, and fails once a node is removed and another auto-added to
the same kind (see the counterexample), when an explicit duplicate name
is passed (no check exists), or when a kind reaches 1000 nodes (name
widths then collide across kinds). -/
theorem addAutoSeq_names_nodup (params : LaunchParams) (kinds : List Kind) (gs : Groups)
    (h : addAutoSeq params [] kinds = .ok gs)
    (hbound : ∀ p ∈ gs, p.2.length ≤ 999) :
    ((getAllNodes gs).map Node.name).Nodup :=
  names_nodup_of_invariant gs
    (addAutoSeq_invariant params kinds [] gs ⟨List.nodup_nil, by intro p hp; cases hp⟩ h)
    hbound

/-- Witness for `addAutoSeq_names_nodup` on the sequence `a, a, b`. -/
theorem addAutoSeq_names_nodup_witness :
    ((getAllNodes fxGsAuto).map Node.name).Nodup :=
  addAutoSeq_names_nodup fxParams [['a'], ['a'], ['b']] fxGsAuto rfl (by decide)

/-! ### C10: the rebalancer moves node references without mutating them -/

theorem aupdate_aupdate {β : Type} (gs : List (Kind × β)) (k : Kind) (v w : β) :
    aupdate (aupdate gs k v) k w = aupdate gs k w := by
  induction gs with
  | nil => rfl
  | cons p rest ih =>
    obtain ⟨k0, v0⟩ := p
    by_cases hk : k0 = k
    · simp [aupdate, hk]
    · simp [aupdate, hk, ih]

theorem aupdate_self {β : Type} (gs : List (Kind × β)) (k : Kind) (v : β)
    (h : alookup gs k = some v) : aupdate gs k v = gs := by
  induction gs with
  | nil => rfl
  | cons p rest ih =>
    obtain ⟨k0, v0⟩ := p
    by_cases hk : k0 = k
    · subst hk
      simp only [alookup, if_pos rfl] at h
      injection h with h
      subst h
      simp [aupdate]
    · simp only [alookup, if_neg hk] at h
      simp [aupdate, hk, ih h]

/-- A present key splits the node concatenation into a context that is
stable under updating that key's list. -/
theorem alookup_decomp (gs : Groups) (k : Kind) (L : List Node)
    (h : alookup gs k = some L) :
    ∃ pre post, getAllNodes gs = pre ++ (L ++ post) ∧
      ∀ v, getAllNodes (aupdate gs k v) = pre ++ (v ++ post) := by
  induction gs with
  | nil => cases h
  | cons p rest ih =>
    obtain ⟨k0, ns⟩ := p
    by_cases hk : k0 = k
    · subst hk
      simp only [alookup, if_pos rfl] at h
      injection h with h
      subst h
      refine ⟨[], getAllNodes rest, by simp [getAllNodes], fun v => ?_⟩
      simp [aupdate, getAllNodes]
    · simp only [alookup, if_neg hk] at h
      obtain ⟨pre, post, h1, h2⟩ := ih h
      refine ⟨ns ++ pre, post, ?_, fun v => ?_⟩
      · simp [getAllNodes, h1, List.append_assoc]
      · simp [aupdate, if_neg hk, getAllNodes, h2 v, List.append_assoc]

/-- One `moveLast` step permutes the node population and never changes
the set of kinds. -/
theorem moveLast_perm (gs gs' : Groups) (u d : Kind)
    (h : moveLast gs u d = .ok gs') :
    (getAllNodes gs').Perm (getAllNodes gs) ∧ gs'.map Prod.fst = gs.map Prod.fst := by
  unfold moveLast at h
  cases hlu : alookup gs u with
  | none => simp only [hlu] at h; cases h
  | some lu =>
    simp only [hlu] at h
    cases hld : alookup gs d with
    | none => simp only [hld] at h; cases h
    | some ld =>
      simp only [hld] at h
      cases hx : ld.getLast? with
      | none => simp only [hx] at h; cases h
      | some x =>
        simp only [hx] at h
        by_cases hud : u = d
        · subst hud
          rw [hlu] at hld
          injection hld with hld
          subst hld
          have h1 : alookup (aupdate gs u (lu ++ [x])) u = some (lu ++ [x]) :=
            alookup_aupdate_self gs u _ lu hlu
          have hne : (lu ++ [x]).isEmpty = false := by simp
          simp only [h1, hne] at h
          simp at h
          subst h
          rw [aupdate_aupdate, aupdate_self gs u lu hlu]
          exact ⟨List.Perm.refl _, rfl⟩
        · have hdu : d ≠ u := fun hc => hud hc.symm
          have h1 : alookup (aupdate gs u (lu ++ [x])) d = some ld := by
            rw [alookup_aupdate_ne gs u d _ hdu]
            exact hld
          have hldne : ld.isEmpty = false := by
            cases ld with
            | nil => cases hx
            | cons a t => rfl
          simp only [h1, hldne] at h
          simp at h
          obtain ⟨ys, hys⟩ := List.getLast?_eq_some_iff.mp hx
          subst h
          constructor
          · obtain ⟨p1, q1, e1, e1u⟩ := alookup_decomp gs u lu hlu
            have e2 : getAllNodes (aupdate gs u (lu ++ [x])) = p1 ++ ((lu ++ [x]) ++ q1) :=
              e1u _
            obtain ⟨p2, q2, e3, e3u⟩ := alookup_decomp (aupdate gs u (lu ++ [x])) d ld h1
            have e4 : getAllNodes (aupdate (aupdate gs u (lu ++ [x])) d ld.dropLast) =
                p2 ++ (ld.dropLast ++ q2) := e3u _
            have hdl : ld.dropLast = ys := by rw [hys, List.dropLast_concat]
            rw [← Multiset.coe_eq_coe, e4, e1, hdl]
            have hms : ((p1 ++ ((lu ++ [x]) ++ q1) : List Node) : Multiset Node) =
                ((p2 ++ ((ys ++ [x]) ++ q2) : List Node) : Multiset Node) := by
              rw [← e2, e3, hys]
            simp only [← Multiset.coe_add] at hms ⊢
            have hcancel :
                ((p2 : Multiset Node) + ((ys : Multiset Node) + (q2 : Multiset Node))) +
                    (([x] : List Node) : Multiset Node) =
                  ((p1 : Multiset Node) + ((lu : Multiset Node) + (q1 : Multiset Node))) +
                    (([x] : List Node) : Multiset Node) := by
              calc ((p2 : Multiset Node) + ((ys : Multiset Node) + (q2 : Multiset Node))) +
                      (([x] : List Node) : Multiset Node)
                  = (p2 : Multiset Node) +
                      (((ys : Multiset Node) + (([x] : List Node) : Multiset Node)) +
                        (q2 : Multiset Node)) := by abel
                _ = (p1 : Multiset Node) +
                      (((lu : Multiset Node) + (([x] : List Node) : Multiset Node)) +
                        (q1 : Multiset Node)) := hms.symm
                _ = ((p1 : Multiset Node) + ((lu : Multiset Node) + (q1 : Multiset Node))) +
                      (([x] : List Node) : Multiset Node) := by abel
            exact add_right_cancel hcancel
          · rw [map_fst_aupdate, map_fst_aupdate]

/-- The donor while-loop permutes the node population and keeps the
kinds. -/
theorem whileMove_perm (u d : Kind) :
    ∀ (fuel : Nat) (missing : Int) (gs : Groups) (uns : List Kind)
      (gs2 : Groups) (missing2 : Int) (uns2 : List Kind),
      whileMove u d fuel missing gs uns = .ok (gs2, missing2, uns2) →
      (getAllNodes gs2).Perm (getAllNodes gs) ∧ gs2.map Prod.fst = gs.map Prod.fst := by
  intro fuel
  induction fuel with
  | zero =>
    intro missing gs uns gs2 missing2 uns2 h
    injection h with h
    injection h with h1 h2
    subst h1
    exact ⟨List.Perm.refl _, rfl⟩
  | succ f ih =>
    intro missing gs uns gs2 missing2 uns2 h
    simp only [whileMove] at h
    by_cases hm : missing ≤ 0
    · rw [if_pos hm] at h
      injection h with h
      injection h with h1 h2
      subst h1
      exact ⟨List.Perm.refl _, rfl⟩
    · rw [if_neg hm] at h
      cases hml : moveLast gs u d with
      | error e => simp only [hml] at h; cases h
      | ok gsx =>
        simp only [hml] at h
        obtain ⟨hp, hk⟩ := ih _ _ _ _ _ _ h
        obtain ⟨hp2, hk2⟩ := moveLast_perm gs gsx u d hml
        exact ⟨hp.trans hp2, hk.trans hk2⟩

/-- The donor scan permutes the node population and keeps the kinds. -/
theorem donorLoop_perm (u : Kind) (mins : MinNodes) :
    ∀ (ds : List Kind) (missing : Int) (gs : Groups) (uns : List Kind)
      (gs2 : Groups) (missing2 : Int) (uns2 : List Kind),
      donorLoop u mins ds missing gs uns = .ok (gs2, missing2, uns2) →
      (getAllNodes gs2).Perm (getAllNodes gs) ∧ gs2.map Prod.fst = gs.map Prod.fst := by
  intro ds
  induction ds with
  | nil =>
    intro missing gs uns gs2 missing2 uns2 h
    injection h with h
    injection h with h1 h2
    subst h1
    exact ⟨List.Perm.refl _, rfl⟩
  | cons d rest ih =>
    intro missing gs uns gs2 missing2 uns2 h
    simp only [donorLoop] at h
    cases hnd : alookup gs d with
    | none => simp only [hnd] at h; cases h
    | some nd =>
      simp only [hnd] at h
      cases hmn : alookup mins d with
      | none => simp only [hmn] at h; cases h
      | some mn =>
        simp only [hmn] at h
        cases hw : whileMove u d ((nd.length : Int) - mn).toNat missing gs uns with
        | error e => simp only [hw] at h; cases h
        | ok r =>
          obtain ⟨gsx, missingx, unsx⟩ := r
          simp only [hw] at h
          obtain ⟨hp, hk⟩ := ih _ _ _ _ _ _ h
          obtain ⟨hp2, hk2⟩ := whileMove_perm u d _ _ _ _ _ _ _ hw
          exact ⟨hp.trans hp2, hk.trans hk2⟩

/-- The unsatisfied-group loop permutes the node population and keeps
the kinds. -/
theorem ugroupLoop_perm (mins : MinNodes) :
    ∀ (us : List Kind) (gs : Groups) (uns : List Kind)
      (gs2 : Groups) (uns2 : List Kind),
      ugroupLoop mins us gs uns = .ok (gs2, uns2) →
      (getAllNodes gs2).Perm (getAllNodes gs) ∧ gs2.map Prod.fst = gs.map Prod.fst := by
  intro us
  induction us with
  | nil =>
    intro gs uns gs2 uns2 h
    injection h with h
    injection h with h1 h2
    subst h1
    exact ⟨List.Perm.refl _, rfl⟩
  | cons u rest ih =>
    intro gs uns gs2 uns2 h
    simp only [ugroupLoop] at h
    cases hmn : alookup mins u with
    | none => simp only [hmn] at h; cases h
    | some mn =>
      simp only [hmn] at h
      cases hnu : alookup gs u with
      | none => simp only [hnu] at h; cases h
      | some nu =>
        simp only [hnu] at h
        cases hd : donorLoop u mins (gs.map Prod.fst) (mn - (nu.length : Int)) gs uns with
        | error e => simp only [hd] at h; cases h
        | ok r =>
          obtain ⟨gsx, missingx, unsx⟩ := r
          simp only [hd] at h
          obtain ⟨hp, hk⟩ := ih _ _ _ _ h
          obtain ⟨hp2, hk2⟩ := donorLoop_perm u mins _ _ _ _ _ _ _ hd
          exact ⟨hp.trans hp2, hk.trans hk2⟩

/-- C10: a successful `_check_cluster_size` never creates, destroys or
mutates a `Node` value — the groups dict afterwards has the same kinds
and its node population is a permutation of the one before; and every
node found in any group of the result (in particular one residing in a
group different from its `kind`) is, unchanged, the node that resided in
the group named by its own `kind` field in the input (assuming the input
satisfied the cluster invariant that each node lies in its kind's
group). -/
theorem check_cluster_size_frame (gs : Groups) (mins : MinNodes) (gs' : Groups)
    (hinv : ∀ p ∈ gs, ∀ n ∈ p.2, n.kind = p.1)
    (h : check_cluster_size gs mins = (gs', none)) :
    gs'.map Prod.fst = gs.map Prod.fst ∧
    (getAllNodes gs').Perm (getAllNodes gs) ∧
    (∀ g' ns' n, (g', ns') ∈ gs' → n ∈ ns' →
      ∃ ns0, (n.kind, ns0) ∈ gs ∧ n ∈ ns0) := by
  unfold check_cluster_size at h
  by_cases htot : ((getAllNodes gs).length : Int) < sumMins mins
  · rw [if_pos htot] at h
    cases h
  · rw [if_neg htot] at h
    cases hu : computeUnsatisfied mins gs with
    | error e => simp only [hu] at h; cases h
    | ok uns =>
      simp only [hu] at h
      cases hl : ugroupLoop mins uns gs uns with
      | error pe =>
        obtain ⟨e, gsx⟩ := pe
        simp only [hl] at h
        cases h
      | ok r =>
        obtain ⟨gs0, uns'⟩ := r
        simp only [hl] at h
        by_cases hu' : uns'.isEmpty
        · rw [if_pos hu'] at h
          injection h with h1 h2
          subst h1
          obtain ⟨hp, hk⟩ := ugroupLoop_perm mins _ _ _ _ _ hl
          refine ⟨hk, hp, ?_⟩
          intro g' ns' n hgmem hnmem
          have hall : n ∈ getAllNodes gs :=
            hp.mem_iff.mp (mem_getAllNodes_entry _ g' ns' n hgmem hnmem)
          obtain ⟨p, hpmem, hnp⟩ := exists_entry_of_mem_getAllNodes gs n hall
          have hkind : n.kind = p.1 := hinv p hpmem n hnp
          exact ⟨p.2, by rw [hkind]; exact hpmem, hnp⟩
        · rw [if_neg hu'] at h
          cases h

/-- Witness for `check_cluster_size_frame` at the spec's feasible
example (`{a:2, b:1}` over counts `{a:1, b:3}`): the rebalance succeeds
by moving the last `b` node into group `a`, and the node population is
preserved. -/
theorem check_cluster_size_frame_witness :
    check_cluster_size fxGsR fxMinsR = (fxGsR', none) ∧
    (getAllNodes fxGsR').Perm (getAllNodes fxGsR) :=
  ⟨rfl, (check_cluster_size_frame fxGsR fxMinsR fxGsR' (by decide) rfl).2.1⟩

end Elasticluster
